import Mathlib

/-!
Verification of the Social-dapp chat widget, text formatter, timestamp
formatter and landing controller, as a shallow embedding of the
TypeScript/React source (`src/app/page.tsx`, the unnamed `Home` variant and
the `ChatWindow` component).

JavaScript strings are embedded as `List Char`; machine timestamps are
`Nat` millisecond counts rendered to decimal strings; the widget's React
state (`messages`, `input`, `isProcessing`) is an explicit record, and the
event handlers / async continuations become pure state transformers joined
by a step relation.
-/

namespace SocialDapp

/-- JavaScript strings, embedded as lists of characters. -/
abbrev Str := List Char

/-- Embed a Lean string literal as a JS string. -/
def str (s : String) : Str := s.toList

/-- Boolean "is a prefix of" test on character lists (JS `startsWith`). -/
def isPrefixOfCh : Str → Str → Bool
  | [], _ => true
  | _ :: _, [] => false
  | a :: as, b :: bs => a == b && isPrefixOfCh as bs

/-- Boolean "is a suffix of" test on character lists (JS `endsWith`). -/
def endsWithCh (suf s : Str) : Bool := isPrefixOfCh suf.reverse s.reverse

theorem isPrefixOfCh_nil (l : Str) : isPrefixOfCh [] l = true := rfl

theorem isPrefixOfCh_refl (l : Str) : isPrefixOfCh l l = true := by
  induction l with
  | nil => rfl
  | cons c cs ih => simp [isPrefixOfCh, ih]

theorem isPrefixOfCh_take (n : Nat) (l : Str) : isPrefixOfCh (l.take n) l = true := by
  induction l generalizing n with
  | nil => cases n <;> rfl
  | cons c cs ih =>
    cases n with
    | zero => rfl
    | succ k => simp [List.take, isPrefixOfCh, ih]

/-- A verified prefix plus the matching drop reassembles the whole string. -/
theorem isPrefixOfCh_append (a : Str) : ∀ b : Str, isPrefixOfCh a b = true →
    a ++ b.drop a.length = b := by
  induction a with
  | nil => intro b _; simp
  | cons c cs ih =>
    intro b h
    cases b with
    | nil => simp [isPrefixOfCh] at h
    | cons d ds =>
      simp only [isPrefixOfCh, Bool.and_eq_true, beq_iff_eq] at h
      obtain ⟨rfl, h2⟩ := h
      simpa using ih ds h2

theorem isPrefixOfCh_length (a b : Str) (h : isPrefixOfCh a b = true) :
    a.length ≤ b.length := by
  have hab := isPrefixOfCh_append a b h
  have : (a ++ b.drop a.length).length = b.length := by rw [hab]
  simp only [List.length_append] at this
  omega

theorem isPrefixOfCh_full (a b : Str) (h : isPrefixOfCh a b = true)
    (hlen : b.length ≤ a.length) : a = b := by
  have hab := isPrefixOfCh_append a b h
  have hd : (b.drop a.length).length = b.length - a.length := List.length_drop ..
  have hz : (b.drop a.length).length = 0 := by
    have : (a ++ b.drop a.length).length = b.length := by rw [hab]
    simp only [List.length_append] at this
    omega
  have : b.drop a.length = [] := List.eq_nil_of_length_eq_zero hz
  rw [this, List.append_nil] at hab
  exact hab

/-- JS whitespace test for the characters `String.prototype.trim` removes
(restricted to the ASCII whitespace relevant here). -/
def isJsSpace (c : Char) : Bool :=
  c == ' ' || c == '\t' || c == '\n' || c == '\r' || c == '\x0b' || c == '\x0c'

/-- JS `String.prototype.trim`: strip whitespace from both ends. -/
def jsTrim (s : Str) : Str :=
  ((s.dropWhile isJsSpace).reverse.dropWhile isJsSpace).reverse

/-- Decimal rendering of a natural number, with an explicit structural fuel
so that it reduces by `decide`/`rfl` (`Nat.toString` of `Date.now()`). -/
def natToStrAux : Nat → Nat → Str
  | 0, _ => []
  | fuel + 1, n =>
    if n < 10 then [Nat.digitChar n]
    else natToStrAux fuel (n / 10) ++ [Nat.digitChar (n % 10)]

/-- `Date.now().toString()`: decimal digits of a millisecond timestamp. -/
def natToStr (n : Nat) : Str := natToStrAux (n + 1) n

/-- A rendered decimal numeral is never the empty string. -/
theorem natToStr_ne_nil (n : Nat) : natToStr n ≠ [] := by
  unfold natToStr natToStrAux
  split
  · simp
  · simp

/-! ## Chat widget data model (`ChatWindow` in the unnamed component file) -/

/-- `sender: "user" | "ai"`. -/
inductive Sender where
  | user : Sender
  | ai : Sender
deriving DecidableEq

/-- The `ChatMessage` interface.  The optional `isImage?`/`isLoading?`
fields (absent ⇒ `undefined`, falsy) are embedded as `Bool` with default
`false`. -/
structure ChatMessage where
  sender : Sender
  text : Str
  timestamp : Str
  displayText : Str
  isImage : Bool := false
  isLoading : Bool := false
deriving DecidableEq

/-- The widget's React state: `messages`, `input`, `isProcessing`. -/
structure ChatState where
  messages : List ChatMessage
  input : Str
  isProcessing : Bool
deriving DecidableEq

/-- `useState` initial values: empty list, empty input, not processing. -/
def initialState : ChatState := { messages := [], input := [], isProcessing := false }

/-- The HTTP request issued by `sendMessage`: `POST /api/ai/{persona}` with
JSON body `{ message: ... }`. -/
structure Request where
  url : Str
  message : Str
deriving DecidableEq

/-- The user message appended by `sendMessage`: raw `input` as both `text`
and `displayText`, `Date.now().toString()` timestamp. -/
def userMessage (input : Str) (now : Nat) : ChatMessage :=
  { sender := .user, text := input, displayText := input, timestamp := natToStr now }

/-- The temporary loading message: empty text, empty timestamp sentinel,
`isLoading: true`. -/
def loadingMessage : ChatMessage :=
  { sender := .ai, text := [], displayText := [], timestamp := [], isLoading := true }

/-- Synchronous phase of `sendMessage`, up to the `fetch` suspension point:
guard `if (!input.trim() || isProcessing) return;`, then append the user
message and the loading placeholder, clear the input, set
`isProcessing = true`, and issue the request (body uses the raw `input`
captured before it is cleared). Returns the new state and the request (or
`none` when the guard rejects the call). -/
def sendMessageStart (persona : Str) (now : Nat) (s : ChatState) :
    ChatState × Option Request :=
  if jsTrim s.input = [] ∨ s.isProcessing = true then (s, none)
  else
    ({ messages := s.messages ++ [userMessage s.input now, loadingMessage],
       input := [],
       isProcessing := true },
     some { url := str "/api/ai/" ++ persona, message := s.input })

/-- The assistant message built from a successful response:
`displayText` starts empty (`isImageResponse ? "" : ""` in the source),
`isImage` set exactly for the `artifex` persona. -/
def aiMessage (persona : Str) (response : Str) (now : Nat) : ChatMessage :=
  { sender := .ai, text := response, displayText := [],
    timestamp := natToStr now,
    isImage := persona == str "artifex" }

/-- The success-path `setMessages`: replace every message whose timestamp
equals the loading sentinel (the empty string) by the assistant message. -/
def replaceLoading (persona : Str) (response : Str) (now : Nat)
    (msgs : List ChatMessage) : List ChatMessage :=
  msgs.map fun msg => if msg.timestamp = loadingMessage.timestamp
    then aiMessage persona response now else msg

/-- Success continuation of `sendMessage` plus the `finally` block:
reconcile the placeholder, reset `isProcessing`. -/
def resolveSuccess (persona : Str) (response : Str) (now : Nat)
    (s : ChatState) : ChatState :=
  { s with
    messages := replaceLoading persona response now s.messages,
    isProcessing := false }

/-- The fixed error message of the catch branch: full immediate reveal. -/
def errorMessage (now : Nat) : ChatMessage :=
  { sender := .ai,
    text := str "Failed to generate response. Please try again.",
    displayText := str "Failed to generate response. Please try again.",
    timestamp := natToStr now }

/-- Catch branch of `sendMessage` plus the `finally` block: drop every
message carrying the sentinel timestamp, append the error message, reset
`isProcessing`. -/
def resolveFailure (now : Nat) (s : ChatState) : ChatState :=
  { s with
    messages :=
      (s.messages.filter fun msg => !(msg.timestamp == loadingMessage.timestamp))
        ++ [errorMessage now],
    isProcessing := false }

/-! ## Typing effect (`useEffect` over `[messages]`) -/

/-- Guard of the typing effect: last message is an assistant message, not
loading, not an image, and not yet fully revealed. -/
def revealGuard (m : ChatMessage) : Bool :=
  (m.sender == Sender.ai) && (!m.isLoading) && (!m.isImage) &&
    decide (m.displayText.length < m.text.length)

/-- The timer body: replace the last message, extending its `displayText`
to `text.slice(0, displayText.length + 1)`. -/
def tickUpdate (m : ChatMessage) : ChatMessage :=
  { m with displayText := m.text.take (m.displayText.length + 1) }

/-- One tick of the typing effect.  (The effect's cleanup clears the timer
whenever `messages` changes, so at firing time the list is the one the
timer was scheduled for.) -/
def revealTick (msgs : List ChatMessage) : List ChatMessage :=
  match msgs.getLast? with
  | none => msgs
  | some last => if revealGuard last then msgs.dropLast ++ [tickUpdate last] else msgs

/-! ## Event system: the widget as a transition relation -/

/-- Externally triggered transitions of the widget.  `setInput` is the
textarea `onChange` (disabled while processing); `send` is the submit
action; `success`/`failure` are the two continuations of the in-flight
request (which exists exactly while `isProcessing` is set); `tick` is the
typing-effect timer. -/
inductive Step (persona : Str) : ChatState → ChatState → Prop where
  | setInput (s : ChatState) (v : Str) (h : s.isProcessing = false) :
      Step persona s { s with input := v }
  | send (s : ChatState) (now : Nat) :
      Step persona s (sendMessageStart persona now s).1
  | success (s : ChatState) (response : Str) (now : Nat)
      (h : s.isProcessing = true) :
      Step persona s (resolveSuccess persona response now s)
  | failure (s : ChatState) (now : Nat) (h : s.isProcessing = true) :
      Step persona s (resolveFailure now s)
  | tick (s : ChatState) :
      Step persona s { s with messages := revealTick s.messages }

/-- States the widget can actually be in. -/
inductive Reachable (persona : Str) : ChatState → Prop where
  | init : Reachable persona initialState
  | step {s s' : ChatState} : Reachable persona s → Step persona s s' →
      Reachable persona s'

/-- Number of loading placeholders in a message list. -/
def loadingCount (msgs : List ChatMessage) : Nat :=
  (msgs.filter fun m => m.isLoading).length

theorem loadingCount_append (a b : List ChatMessage) :
    loadingCount (a ++ b) = loadingCount a + loadingCount b := by
  simp [loadingCount, List.filter_append]

theorem loadingCount_cons (m : ChatMessage) (t : List ChatMessage) :
    loadingCount (m :: t) = (if m.isLoading then 1 else 0) + loadingCount t := by
  cases hm : m.isLoading <;> simp [loadingCount, List.filter_cons, hm, Nat.add_comm]

theorem loadingCount_eq_zero_iff (msgs : List ChatMessage) :
    loadingCount msgs = 0 ↔ ∀ m ∈ msgs, m.isLoading = false := by
  simp [loadingCount, List.length_eq_zero, List.filter_eq_nil_iff]

/-- The state invariant of the widget: a message is the loading
placeholder exactly when it carries the empty-timestamp sentinel; there is
one placeholder while a request is in flight and none otherwise; and every
message's `displayText` is a prefix of its `text`. -/
structure Inv (s : ChatState) : Prop where
  sentinel : ∀ m ∈ s.messages, (m.isLoading = true ↔ m.timestamp = [])
  count : loadingCount s.messages = (if s.isProcessing = true then 1 else 0)
  pre : ∀ m ∈ s.messages, isPrefixOfCh m.displayText m.text = true

theorem inv_initial : Inv initialState := by
  refine ⟨?_, ?_, ?_⟩ <;> simp [initialState, loadingCount]

theorem inv_step {p : Str} {s s' : ChatState} (hI : Inv s) (hs : Step p s s') :
    Inv s' := by
  cases hs with
  | setInput v h =>
    exact ⟨hI.sentinel, hI.count, hI.pre⟩
  | send now =>
    by_cases hg : jsTrim s.input = [] ∨ s.isProcessing = true
    · simpa [sendMessageStart, hg] using hI
    · push_neg at hg
      obtain ⟨hg1, hg2⟩ := hg
      have hproc : s.isProcessing = false := by
        cases hip : s.isProcessing
        · rfl
        · exact absurd hip hg2
      have hmsgs : (sendMessageStart p now s).1.messages
          = s.messages ++ [userMessage s.input now, loadingMessage] := by
        simp [sendMessageStart, hg1, hg2]
      have hip : (sendMessageStart p now s).1.isProcessing = true := by
        simp [sendMessageStart, hg1, hg2]
      refine ⟨?_, ?_, ?_⟩
      · rw [hmsgs]
        intro m hm
        rcases List.mem_append.mp hm with hm | hm
        · exact hI.sentinel m hm
        · rcases List.mem_cons.mp hm with rfl | hm
          · simp [userMessage, natToStr_ne_nil now]
          · rcases List.mem_singleton.mp hm with rfl
            simp [loadingMessage]
      · rw [hmsgs, hip, loadingCount_append]
        have h0 : loadingCount s.messages = 0 := by
          have := hI.count
          rw [hproc] at this
          simpa using this
        rw [h0]
        simp [loadingCount, List.filter_cons, userMessage, loadingMessage]
      · rw [hmsgs]
        intro m hm
        rcases List.mem_append.mp hm with hm | hm
        · exact hI.pre m hm
        · rcases List.mem_cons.mp hm with rfl | hm
          · simp [userMessage, isPrefixOfCh_refl]
          · rcases List.mem_singleton.mp hm with rfl
            simp [loadingMessage, isPrefixOfCh_nil]
  | success response now h =>
    have hall : ∀ m ∈ (resolveSuccess p response now s).messages,
        m.isLoading = false ∧ (m.isLoading = true ↔ m.timestamp = [])
          ∧ isPrefixOfCh m.displayText m.text = true := by
      intro m hm
      simp only [resolveSuccess, replaceLoading, List.mem_map] at hm
      obtain ⟨m0, hm0, rfl⟩ := hm
      by_cases hts : m0.timestamp = loadingMessage.timestamp
      · simp only [hts, if_pos rfl]
        refine ⟨rfl, ?_, ?_⟩
        · simp [aiMessage, natToStr_ne_nil now]
        · simp [aiMessage, isPrefixOfCh_nil]
      · simp only [if_neg hts]
        have hsen := hI.sentinel m0 hm0
        have hnl : m0.isLoading = false := by
          cases hl : m0.isLoading
          · rfl
          · exact absurd (hsen.mp hl) hts
        exact ⟨hnl, hsen, hI.pre m0 hm0⟩
    refine ⟨fun m hm => (hall m hm).2.1, ?_, fun m hm => (hall m hm).2.2⟩
    · have h0 : loadingCount (resolveSuccess p response now s).messages = 0 :=
        (loadingCount_eq_zero_iff _).mpr (fun m hm => (hall m hm).1)
      rw [h0]
      simp [resolveSuccess]
  | failure now h =>
    have hmsgs : (resolveFailure now s).messages
        = (s.messages.filter fun msg => !(msg.timestamp == loadingMessage.timestamp))
            ++ [errorMessage now] := rfl
    have hall : ∀ m ∈ (resolveFailure now s).messages,
        m.isLoading = false ∧ (m.isLoading = true ↔ m.timestamp = [])
          ∧ isPrefixOfCh m.displayText m.text = true := by
      intro m hm
      rw [hmsgs] at hm
      rcases List.mem_append.mp hm with hm | hm
      · obtain ⟨hmem, hkeep⟩ := List.mem_filter.mp hm
        have hts : ¬ m.timestamp = loadingMessage.timestamp := by
          simpa using hkeep
        have hsen := hI.sentinel m hmem
        have hnl : m.isLoading = false := by
          cases hl : m.isLoading
          · rfl
          · exact absurd (hsen.mp hl) (by simpa [loadingMessage] using hts)
        exact ⟨hnl, hsen, hI.pre m hmem⟩
      · rcases List.mem_singleton.mp hm with rfl
        refine ⟨rfl, ?_, ?_⟩
        · simp [errorMessage, natToStr_ne_nil now]
        · simp [errorMessage, isPrefixOfCh_refl]
    refine ⟨fun m hm => (hall m hm).2.1, ?_, fun m hm => (hall m hm).2.2⟩
    · have h0 : loadingCount (resolveFailure now s).messages = 0 :=
        (loadingCount_eq_zero_iff _).mpr (fun m hm => (hall m hm).1)
      rw [h0]
      simp [resolveFailure]
  | tick =>
    cases hL : s.messages.getLast? with
    | none =>
      have : revealTick s.messages = s.messages := by simp [revealTick, hL]
      rw [this] at *
      exact ⟨hI.sentinel, hI.count, hI.pre⟩
    | some last =>
      by_cases hg : revealGuard last = true
      · obtain ⟨ys, hys⟩ := List.getLast?_eq_some_iff.mp hL
        have hdrop : s.messages.dropLast = ys := by
          rw [hys, List.dropLast_concat]
        have htick : revealTick s.messages = ys ++ [tickUpdate last] := by
          simp [revealTick, hL, hg, hdrop]
        have hlastmem : last ∈ s.messages := by
          rw [hys]; exact List.mem_append_right ys (List.mem_singleton_self last)
        refine ⟨?_, ?_, ?_⟩
        · rw [htick]
          intro m hm
          rcases List.mem_append.mp hm with hm | hm
          · exact hI.sentinel m (by rw [hys]; exact List.mem_append_left _ hm)
          · rcases List.mem_singleton.mp hm with rfl
            exact hI.sentinel last hlastmem
        · rw [htick, loadingCount_append]
          have := hI.count
          rw [hys, loadingCount_append] at this
          have hsame : loadingCount [tickUpdate last] = loadingCount [last] := by
            cases hlast : last.isLoading <;>
              simp [loadingCount, List.filter_cons, tickUpdate, hlast]
          rw [hsame]
          simpa using this
        · rw [htick]
          intro m hm
          rcases List.mem_append.mp hm with hm | hm
          · exact hI.pre m (by rw [hys]; exact List.mem_append_left _ hm)
          · rcases List.mem_singleton.mp hm with rfl
            simp [tickUpdate, isPrefixOfCh_take]
      · have : revealTick s.messages = s.messages := by simp [revealTick, hL, hg]
        rw [this]
        exact ⟨hI.sentinel, hI.count, hI.pre⟩

/-- Every reachable widget state satisfies the invariant. -/
theorem inv_reachable {p : Str} {s : ChatState} (h : Reachable p s) : Inv s := by
  induction h with
  | init => exact inv_initial
  | step _ hstep ih => exact inv_step ih hstep

/-! ## Behaviour of the typing effect -/

/-- A tick never decreases any message's revealed length and never changes
any message's full text. -/
theorem reveal_nondecreasing (msgs : List ChatMessage) :
    List.Forall₂
      (fun a b => a.displayText.length ≤ b.displayText.length ∧ b.text = a.text)
      msgs (revealTick msgs) := by
  cases hL : msgs.getLast? with
  | none =>
    rw [show revealTick msgs = msgs from by simp [revealTick, hL]]
    exact List.forall₂_same.mpr fun x _ => ⟨Nat.le_refl _, rfl⟩
  | some last =>
    by_cases hg : revealGuard last = true
    · obtain ⟨ys, hys⟩ := List.getLast?_eq_some_iff.mp hL
      have htick : revealTick msgs = ys ++ [tickUpdate last] := by
        simp [revealTick, hL, hg, hys, List.dropLast_concat]
      have hdt : last.displayText.length < last.text.length := by
        simp only [revealGuard, Bool.and_eq_true, decide_eq_true_eq] at hg
        exact hg.2
      rw [htick, hys]
      refine List.rel_append (List.forall₂_same.mpr fun x _ => ⟨Nat.le_refl _, rfl⟩) ?_
      refine List.Forall₂.cons ⟨?_, rfl⟩ List.Forall₂.nil
      simp only [tickUpdate, List.length_take]
      omega
    · rw [show revealTick msgs = msgs from by simp [revealTick, hL, hg]]
      exact List.forall₂_same.mpr fun x _ => ⟨Nat.le_refl _, rfl⟩

/-- When the last message is a textual, non-loading assistant message with
`displayText` a prefix of `text`, exactly `text.length - displayText.length`
ticks fully reveal it. -/
theorem reveal_completes :
    ∀ (k : Nat) (msgs : List ChatMessage) (m : ChatMessage),
      msgs.getLast? = some m → m.sender = Sender.ai → m.isLoading = false →
      m.isImage = false → isPrefixOfCh m.displayText m.text = true →
      m.text.length - m.displayText.length = k →
      (revealTick^[k] msgs).getLast? = some { m with displayText := m.text } := by
  intro k
  induction k with
  | zero =>
    intro msgs m hL _ _ _ hpre hk
    have hlen : m.text.length ≤ m.displayText.length := by omega
    have hfull : m.displayText = m.text := isPrefixOfCh_full _ _ hpre hlen
    have hm : { m with displayText := m.text } = m := by
      cases m
      simp_all
    rw [Function.iterate_zero_apply, hm]
    exact hL
  | succ k ih =>
    intro msgs m hL hai hnl hni hpre hk
    have hdt : m.displayText.length < m.text.length := by omega
    have hg : revealGuard m = true := by
      simp [revealGuard, hai, hnl, hni, hdt]
    obtain ⟨ys, hys⟩ := List.getLast?_eq_some_iff.mp hL
    have htick : revealTick msgs = ys ++ [tickUpdate m] := by
      simp [revealTick, hL, hg, hys, List.dropLast_concat]
    have hstep := ih (revealTick msgs) (tickUpdate m)
      (by rw [htick]; exact List.getLast?_concat ys)
      (by simpa [tickUpdate] using hai)
      (by simpa [tickUpdate] using hnl)
      (by simpa [tickUpdate] using hni)
      (by simp [tickUpdate, isPrefixOfCh_take])
      (by simp [tickUpdate, List.length_take]; omega)
    rw [Function.iterate_succ_apply]
    have heq : ({ tickUpdate m with displayText := (tickUpdate m).text })
        = { m with displayText := m.text } := by
      cases m
      simp [tickUpdate]
    rw [heq] at hstep
    exact hstep

/-! ## A concrete execution trace (used for witnesses and counterexamples)

`t0 → … → t6` replays: type "a", send it, receive "hi", one reveal tick
(displayText "h"), type "b", send again.  In `t6` the first assistant
message is abandoned mid-reveal. -/

def demoPersona : Str := str "luna"

def t0 : ChatState := initialState
def t1 : ChatState := { t0 with input := str "a" }
def t2 : ChatState := (sendMessageStart demoPersona 1 t1).1
def t3 : ChatState := resolveSuccess demoPersona (str "hi") 2 t2
def t4 : ChatState := { t3 with messages := revealTick t3.messages }
def t5 : ChatState := { t4 with input := str "b" }
def t6 : ChatState := (sendMessageStart demoPersona 3 t5).1

theorem reach_t1 : Reachable demoPersona t1 :=
  Reachable.step Reachable.init (Step.setInput t0 (str "a") rfl)

theorem reach_t2 : Reachable demoPersona t2 :=
  Reachable.step reach_t1 (Step.send t1 1)

theorem reach_t3 : Reachable demoPersona t3 :=
  Reachable.step reach_t2 (Step.success t2 (str "hi") 2 rfl)

theorem reach_t4 : Reachable demoPersona t4 :=
  Reachable.step reach_t3 (Step.tick t3)

theorem reach_t5 : Reachable demoPersona t5 :=
  Reachable.step reach_t4 (Step.setInput t4 (str "b") rfl)

theorem reach_t6 : Reachable demoPersona t6 :=
  Reachable.step reach_t5 (Step.send t5 3)

/-! ## `formatResponseText`: the emphasis splitter

`text.split(/(\*\*.*?\*\*|\*.*?\*)/g)` with one capture group: the output
interleaves the chunks between matches with the matched spans.  Matching is
leftmost; at a given position the bold alternative is tried before the
italic one; `.` does not match a newline; `.*?` is lazy. -/

/-- Lazy kernel of `.*?X`: the shortest run of non-newline characters after
which `closer` matches; returns the run and the input past the closer. -/
def lazyBody (closer : Str) : Str → Option (Str × Str)
  | [] => none
  | c :: cs =>
    if isPrefixOfCh closer (c :: cs) = true then some ([], (c :: cs).drop closer.length)
    else if c == '\n' then none
    else (lazyBody closer cs).map fun br => (c :: br.1, br.2)

def starStar : Str := ['*', '*']

/-- Try the split regex at the head of `s`: the bold alternative
`\*\*.*?\*\*` first, then the italic one `\*.*?\*`. -/
def matchAt (s : Str) : Option (Str × Str) :=
  if isPrefixOfCh starStar s = true then
    match lazyBody starStar (s.drop 2) with
    | some (b, r) => some (starStar ++ b ++ starStar, r)
    | none =>
      match lazyBody ['*'] (s.drop 1) with
      | some (b, r) => some ('*' :: (b ++ ['*']), r)
      | none => none
  else if isPrefixOfCh ['*'] s = true then
    match lazyBody ['*'] (s.drop 1) with
    | some (b, r) => some ('*' :: (b ++ ['*']), r)
    | none => none
  else none

theorem lazyBody_sound (closer : Str) :
    ∀ (s b r : Str), lazyBody closer s = some (b, r) → b ++ (closer ++ r) = s := by
  intro s
  induction s with
  | nil => intro b r h; simp [lazyBody] at h
  | cons c cs ih =>
    intro b r h
    rw [lazyBody] at h
    by_cases hp : isPrefixOfCh closer (c :: cs) = true
    · rw [if_pos hp] at h
      simp only [Option.some.injEq, Prod.mk.injEq] at h
      obtain ⟨rfl, rfl⟩ := h
      simpa using isPrefixOfCh_append closer (c :: cs) hp
    · rw [if_neg hp] at h
      by_cases hn : (c == '\n') = true
      · rw [if_pos hn] at h; cases h
      · rw [if_neg hn] at h
        cases hrec : lazyBody closer cs with
        | none => rw [hrec] at h; cases h
        | some br =>
          obtain ⟨b0, r0⟩ := br
          rw [hrec] at h
          simp only [Option.map_some', Option.some.injEq, Prod.mk.injEq] at h
          obtain ⟨rfl, rfl⟩ := h
          have hres := ih b0 r0 hrec
          simp [← hres]

theorem matchAt_sound (s m r : Str) (h : matchAt s = some (m, r)) :
    m ++ r = s ∧ 2 ≤ m.length := by
  by_cases h2 : isPrefixOfCh starStar s = true
  · have hs2 : starStar ++ s.drop 2 = s := by
      simpa [starStar] using isPrefixOfCh_append starStar s h2
    have hs1 : isPrefixOfCh ['*'] s = true := by
      cases s with
      | nil => simp [starStar, isPrefixOfCh] at h2
      | cons c cs =>
        simp only [starStar, isPrefixOfCh, Bool.and_eq_true, beq_iff_eq] at h2
        simp only [isPrefixOfCh, Bool.and_eq_true, beq_iff_eq]
        exact ⟨h2.1, trivial⟩
    have hs1' : '*' :: s.drop 1 = s := by
      simpa using isPrefixOfCh_append ['*'] s hs1
    rw [matchAt, if_pos h2] at h
    cases hb : lazyBody starStar (s.drop 2) with
    | some br =>
      obtain ⟨b, r0⟩ := br
      rw [hb] at h
      simp only [Option.some.injEq, Prod.mk.injEq] at h
      obtain ⟨rfl, rfl⟩ := h
      have hsound := lazyBody_sound starStar (s.drop 2) b r0 hb
      constructor
      · calc (starStar ++ b ++ starStar) ++ r0
            = starStar ++ (b ++ (starStar ++ r0)) := by simp [List.append_assoc]
          _ = starStar ++ s.drop 2 := by rw [hsound]
          _ = s := hs2
      · simp [starStar]
    | none =>
      rw [hb] at h
      cases hi : lazyBody ['*'] (s.drop 1) with
      | none => rw [hi] at h; cases h
      | some br =>
        obtain ⟨b, r0⟩ := br
        rw [hi] at h
        simp only [Option.some.injEq, Prod.mk.injEq] at h
        obtain ⟨rfl, rfl⟩ := h
        have hsound := lazyBody_sound ['*'] (s.drop 1) b r0 hi
        constructor
        · calc ('*' :: (b ++ ['*'])) ++ r0
              = '*' :: (b ++ (['*'] ++ r0)) := by simp [List.append_assoc]
            _ = '*' :: s.drop 1 := by rw [hsound]
            _ = s := hs1'
        · simp
  · by_cases h1 : isPrefixOfCh ['*'] s = true
    · have hs1' : '*' :: s.drop 1 = s := by
        simpa using isPrefixOfCh_append ['*'] s h1
      rw [matchAt, if_neg h2, if_pos h1] at h
      cases hi : lazyBody ['*'] (s.drop 1) with
      | none => rw [hi] at h; cases h
      | some br =>
        obtain ⟨b, r0⟩ := br
        rw [hi] at h
        simp only [Option.some.injEq, Prod.mk.injEq] at h
        obtain ⟨rfl, rfl⟩ := h
        have hsound := lazyBody_sound ['*'] (s.drop 1) b r0 hi
        constructor
        · calc ('*' :: (b ++ ['*'])) ++ r0
              = '*' :: (b ++ (['*'] ++ r0)) := by simp [List.append_assoc]
            _ = '*' :: s.drop 1 := by rw [hsound]
            _ = s := hs1'
        · simp
    · rw [matchAt, if_neg h2, if_neg h1] at h
      cases h

/-- Fuelled worker for the split (one unit of fuel per character suffices;
fuel keeps the recursion structural so that terms reduce by `decide`). -/
def splitStarsF : Nat → Str → List Str
  | 0, s => [s]
  | fuel + 1, s =>
    match matchAt s with
    | some (m, r) => [] :: m :: splitStarsF fuel r
    | none =>
      match s with
      | [] => [[]]
      | c :: cs =>
        match splitStarsF fuel cs with
        | [] => [[c]]
        | h1 :: t => (c :: h1) :: t

/-- JS `text.split(/(\*\*.*?\*\*|\*.*?\*)/g)`. -/
def splitStars (s : Str) : List Str := splitStarsF (s.length + 1) s

theorem splitStarsF_flatten :
    ∀ (fuel : Nat) (s : Str), s.length < fuel → (splitStarsF fuel s).flatten = s := by
  intro fuel
  induction fuel with
  | zero => intro s h; omega
  | succ fuel ih =>
    intro s hlen
    cases hm : matchAt s with
    | some mr =>
      obtain ⟨m, r⟩ := mr
      obtain ⟨hmr, hm2⟩ := matchAt_sound s m r hm
      have hr : r.length < fuel := by
        have : m.length + r.length = s.length := by rw [← hmr, List.length_append]
        omega
      have heq : splitStarsF (fuel + 1) s = [] :: m :: splitStarsF fuel r := by
        simp only [splitStarsF, hm]
      rw [heq]
      simp only [List.flatten_cons, List.nil_append]
      rw [ih r hr, hmr]
    | none =>
      cases s with
      | nil => simp [splitStarsF, hm]
      | cons c cs =>
        have hcs : cs.length < fuel := by
          simp only [List.length_cons] at hlen
          omega
        have hjoin := ih cs hcs
        cases hsplit : splitStarsF fuel cs with
        | nil =>
          rw [hsplit] at hjoin
          simp only [List.flatten_nil] at hjoin
          have heq : splitStarsF (fuel + 1) (c :: cs) = [[c]] := by
            simp only [splitStarsF, hm, hsplit]
          rw [heq, ← hjoin]
          simp
        | cons h1 t =>
          rw [hsplit] at hjoin
          have heq : splitStarsF (fuel + 1) (c :: cs) = (c :: h1) :: t := by
            simp only [splitStarsF, hm, hsplit]
          rw [heq, ← hjoin]
          simp

/-- The split never loses characters: its parts concatenate to the input. -/
theorem splitStars_flatten (s : Str) : (splitStars s).flatten = s :=
  splitStarsF_flatten (s.length + 1) s (by omega)

/-- A rendered fragment of the chat message body: `<strong>`, `<em>`, or a
plain `<span>`. -/
inductive Seg where
  | strong : Str → Seg
  | em : Str → Seg
  | span : Str → Seg
deriving DecidableEq

/-- JS `part.slice(a, -a)` (start `a`, end `length - a`, clamped). -/
def sliceInner (a : Nat) (p : Str) : Str := (p.drop a).take (p.length - 2 * a)

/-- Classify one split part exactly as the component's `map` does:
`startsWith("**") && endsWith("**")` ⇒ strong, else
`startsWith("*") && endsWith("*")` ⇒ em, else plain span. -/
def renderPart (p : Str) : Seg :=
  if isPrefixOfCh starStar p && endsWithCh starStar p then .strong (sliceInner 2 p)
  else if isPrefixOfCh ['*'] p && endsWithCh ['*'] p then .em (sliceInner 1 p)
  else .span p

/-- `formatResponseText`: split on the emphasis regex, render each part. -/
def formatResponseText (s : Str) : List Seg := (splitStars s).map renderPart

/-- The characters a fragment displays (emphasis delimiters stripped). -/
def segText : Seg → Str
  | .strong c => c
  | .em c => c
  | .span t => t

/-- Parts without any asterisk render as unchanged plain spans. -/
theorem renderPart_span_of_no_star (p : Str) (h : ∀ c ∈ p, c ≠ '*') :
    renderPart p = Seg.span p := by
  cases p with
  | nil => rfl
  | cons c cs =>
    have hc : c ≠ '*' := h c (List.mem_cons_self c cs)
    have hbeq : ('*' == c) = false := beq_eq_false_iff_ne.mpr fun he => hc he.symm
    have h2 : isPrefixOfCh starStar (c :: cs) = false := by
      simp [starStar, isPrefixOfCh, hbeq]
    have h1 : isPrefixOfCh ['*'] (c :: cs) = false := by
      simp [isPrefixOfCh, hbeq]
    simp [renderPart, h1, h2]

/-! ## `formatTimestamp` -/

/-- JS `Number(string)`, restricted to the relevant inputs: whitespace is
trimmed; the empty string parses as `0`; a nonempty all-digit string is its
decimal value; anything else is `NaN` (`none`). -/
def jsNumber (s : Str) : Option Nat :=
  let t := jsTrim s
  if t = [] then some 0
  else if t.all (fun c => c.isDigit) then
    some (t.foldl (fun acc c => acc * 10 + (c.toNat - '0'.toNat)) 0)
  else none

/-- Two-digit zero-padded decimal field. -/
def twoDigit (n : Nat) : Str := if n < 10 then '0' :: natToStr n else natToStr n

/-- Hour/minute rendering of an epoch-millisecond time value (the locale
`{hour: "2-digit", minute: "2-digit"}` output, fixed to a 24h UTC form). -/
def renderHM (millis : Nat) : Str :=
  twoDigit (millis / 3600000 % 24) ++ (':' :: twoDigit (millis / 60000 % 60))

/-- `Date.prototype.toLocaleTimeString` applied to `new Date(x)`: by
ECMA-402 it returns the fixed string `"Invalid Date"` — it does not throw —
when the date's time value is `NaN`. -/
def toLocaleTimeStringHM : Option Nat → Str
  | none => str "Invalid Date"
  | some n => renderHM n

/-- `formatTimestamp` from the source:
`try { return new Date(Number(timestamp)).toLocaleTimeString([], …) }`
`catch { return new Date().toLocaleTimeString([], …) }`.
The body never throws (see `toLocaleTimeStringHM`), so the catch fallback —
which would be `renderHM _now` — is unreachable; the parameter records the
current time the fallback would use. -/
def formatTimestamp (_now : Nat) (ts : Str) : Str :=
  toLocaleTimeStringHM (jsNumber ts)

/-! ## The landing controller (`Home`) -/

/-- The `useEffect` body of `Home` in `src/app/page.tsx`: navigate to the
dashboard whenever the wallet is connected.  The current pathname is
ambient browser state this variant does not consult. -/
def homeEffectPage (connected : Bool) (_pathname : Str) : Option Str :=
  if connected then some (str "/dashboard") else none

/-- The `useEffect` body of the unnamed `Home` variant: navigate only when
connected and `window.location.pathname === '/'`. -/
def homeEffectGuarded (connected : Bool) (pathname : Str) : Option Str :=
  if connected && (pathname == str "/") then some (str "/dashboard") else none

/-! ## Shared helper lemmas for the claims -/

/-- `sendMessageStart` on an accepted input (nonblank after trimming, not
processing): the full resulting state and request. -/
theorem sendMessageStart_accepts (p : Str) (now : Nat) (s : ChatState)
    (hin : jsTrim s.input ≠ []) (hp : s.isProcessing = false) :
    sendMessageStart p now s
      = ({ messages := s.messages ++ [userMessage s.input now, loadingMessage],
           input := [], isProcessing := true },
         some { url := str "/api/ai/" ++ p, message := s.input }) := by
  have hg : ¬(jsTrim s.input = [] ∨ s.isProcessing = true) := by
    push_neg
    exact ⟨hin, by simp [hp]⟩
  simp only [sendMessageStart, if_neg hg]

/-- The success-path map is the identity on lists of messages that all
carry a real (nonempty) timestamp. -/
theorem replaceLoading_id (p response : Str) (now : Nat) :
    ∀ msgs : List ChatMessage, (∀ m ∈ msgs, m.timestamp ≠ []) →
      replaceLoading p response now msgs = msgs := by
  intro msgs
  induction msgs with
  | nil => intro _; rfl
  | cons m t ih =>
    intro h
    have hm : ¬ m.timestamp = loadingMessage.timestamp :=
      h m (List.mem_cons_self m t)
    have ht := ih fun x hx => h x (List.mem_cons_of_mem m hx)
    simp only [replaceLoading, List.map_cons] at ht ⊢
    rw [if_neg hm, ht]

/-- The failure-path filter keeps every message with a real timestamp. -/
theorem filterLoading_id (msgs : List ChatMessage)
    (h : ∀ m ∈ msgs, m.timestamp ≠ []) :
    (msgs.filter fun m => !(m.timestamp == loadingMessage.timestamp)) = msgs := by
  apply List.filter_eq_self.mpr
  intro m hm
  simpa [loadingMessage] using h m hm

/-- In a reachable idle state every message has a real timestamp. -/
theorem idle_timestamps {p : Str} {s : ChatState} (hs : Reachable p s)
    (hp : s.isProcessing = false) : ∀ m ∈ s.messages, m.timestamp ≠ [] := by
  have hI := inv_reachable hs
  have h0 : loadingCount s.messages = 0 := by simpa [hp] using hI.count
  have hnl := (loadingCount_eq_zero_iff s.messages).mp h0
  intro m hm he
  have := (hI.sentinel m hm).mpr he
  rw [hnl m hm] at this
  cases this

/-! ## The claims -/

/-- Claim C1 (amended): in every reachable widget state, every message's
`displayText` is a prefix of its `text`; a reveal-effect tick never
decreases any message's revealed length and never changes any message's
`text`; and when the last message of the list is a textual, non-loading
assistant message, exactly `text.length - displayText.length` ticks reveal
it fully.  (The original claim asserted completion for *every* textual
assistant message; a message that stops being last — a new send arrives
mid-reveal — is abandoned by the effect, see the counterexample.) -/
theorem claim_C1_reveal (p : Str) (s : ChatState) (hs : Reachable p s) :
    (∀ m ∈ s.messages, isPrefixOfCh m.displayText m.text = true) ∧
    (List.Forall₂
      (fun a b => a.displayText.length ≤ b.displayText.length ∧ b.text = a.text)
      s.messages (revealTick s.messages)) ∧
    (∀ m : ChatMessage, s.messages.getLast? = some m → m.sender = Sender.ai →
      m.isLoading = false → m.isImage = false →
      (revealTick^[m.text.length - m.displayText.length] s.messages).getLast? =
        some { m with displayText := m.text }) := by
  have hI := inv_reachable hs
  refine ⟨hI.pre, reveal_nondecreasing s.messages, ?_⟩
  intro m hL hai hnl hni
  exact reveal_completes _ s.messages m hL hai hnl hni
    (hI.pre m (List.mem_of_getLast?_eq_some hL)) rfl

/-- The abandoned mid-reveal assistant message sitting at index 1 of the
reachable state `t6`. -/
def stuckMessage : ChatMessage :=
  { sender := .ai, text := str "hi", displayText := str "h", timestamp := natToStr 2 }

/-- Claim C1 counterexample: `t6` is reachable, contains the textual
non-loading assistant message `stuckMessage` with `displayText ≠ text`,
and is a fixed point of the reveal tick — so no number of ticks ever makes
that message's `displayText` reach its `text`, refuting "reaching
`displayText == text` in finitely many ticks" for every such message. -/
theorem claim_C1_counterexample :
    Reachable demoPersona t6 ∧
    t6.messages[1]? = some stuckMessage ∧
    stuckMessage.sender = Sender.ai ∧ stuckMessage.isLoading = false ∧
    stuckMessage.isImage = false ∧ stuckMessage.displayText ≠ stuckMessage.text ∧
    revealTick t6.messages = t6.messages :=
  ⟨reach_t6, by decide, rfl, rfl, rfl, by decide, by decide⟩

theorem claim_C1_witness :
    t3.messages.getLast? = some (aiMessage demoPersona (str "hi") 2) ∧
    (revealTick^[(aiMessage demoPersona (str "hi") 2).text.length -
        (aiMessage demoPersona (str "hi") 2).displayText.length] t3.messages).getLast?
      = some { aiMessage demoPersona (str "hi") 2 with
                displayText := (aiMessage demoPersona (str "hi") 2).text } :=
  ⟨by decide,
   (claim_C1_reveal demoPersona t3 reach_t3).2.2 (aiMessage demoPersona (str "hi") 2)
     (by decide) (by decide) (by decide) (by decide)⟩

/-- Claim C2: in every reachable state the message list has exactly one
loading placeholder while a send is pending and none otherwise — in
particular never more than one. -/
theorem claim_C2_loading (p : Str) (s : ChatState) (hs : Reachable p s) :
    loadingCount s.messages = (if s.isProcessing = true then 1 else 0) ∧
    loadingCount s.messages ≤ 1 := by
  have hI := inv_reachable hs
  refine ⟨hI.count, ?_⟩
  rw [hI.count]
  split <;> omega

theorem claim_C2_witness :
    loadingCount t2.messages = (if t2.isProcessing = true then 1 else 0) ∧
    loadingCount t2.messages ≤ 1 :=
  claim_C2_loading demoPersona t2 reach_t2

/-- Claim C3: on failure of the in-flight request the placeholder is
removed (only non-loading messages survive the filter), a single error
message with the fixed text is appended last with `displayText` equal to
its full text, and `isProcessing` is `false` afterwards on the failure and
the success path alike. -/
theorem claim_C3_failure (p response : Str) (now : Nat) (s : ChatState)
    (hs : Reachable p s) (hp : s.isProcessing = true) :
    (resolveFailure now s).messages
        = (s.messages.filter fun m => !m.isLoading) ++ [errorMessage now] ∧
    loadingCount (resolveFailure now s).messages = 0 ∧
    (resolveFailure now s).messages.getLast? = some (errorMessage now) ∧
    (errorMessage now).text = str "Failed to generate response. Please try again." ∧
    (errorMessage now).displayText = (errorMessage now).text ∧
    (resolveFailure now s).isProcessing = false ∧
    (resolveSuccess p response now s).isProcessing = false := by
  have hI := inv_reachable hs
  have hfilter :
      (s.messages.filter fun msg => !(msg.timestamp == loadingMessage.timestamp))
        = s.messages.filter fun m => !m.isLoading := by
    apply List.filter_congr
    intro m hm
    have hsen := hI.sentinel m hm
    cases hl : m.isLoading
    · have hts : ¬ m.timestamp = [] := fun he => by
        have := hsen.mpr he
        rw [hl] at this
        cases this
      simp [loadingMessage, beq_eq_false_iff_ne.mpr hts]
    · have hts := hsen.mp hl
      simp [loadingMessage, hts]
  have hI' : Inv (resolveFailure now s) :=
    @inv_step p s (resolveFailure now s) hI (Step.failure s now hp)
  refine ⟨?_, ?_, ?_, rfl, rfl, rfl, rfl⟩
  · simp only [resolveFailure]
    rw [hfilter]
  · simpa using hI'.count
  · exact List.getLast?_concat _

theorem claim_C3_witness :
    (resolveFailure 9 t2).messages
        = (t2.messages.filter fun m => !m.isLoading) ++ [errorMessage 9] ∧
    loadingCount (resolveFailure 9 t2).messages = 0 ∧
    (resolveFailure 9 t2).messages.getLast? = some (errorMessage 9) ∧
    (errorMessage 9).text = str "Failed to generate response. Please try again." ∧
    (errorMessage 9).displayText = (errorMessage 9).text ∧
    (resolveFailure 9 t2).isProcessing = false ∧
    (resolveSuccess demoPersona (str "hi") 9 t2).isProcessing = false :=
  claim_C3_failure demoPersona (str "hi") 9 t2 reach_t2 rfl

/-- Claim C4: on an accepted call (nonblank trimmed input, not processing)
`sendMessage` synchronously appends exactly the user message (full reveal,
`displayText = text`) followed by the loading placeholder
(`isLoading = true`), clears the input and sets `isProcessing = true` —
all before any network response is processed. -/
theorem claim_C4_send (p : Str) (now : Nat) (s : ChatState)
    (hin : jsTrim s.input ≠ []) (hp : s.isProcessing = false) :
    (sendMessageStart p now s).1.messages
        = s.messages ++ [userMessage s.input now, loadingMessage] ∧
    (userMessage s.input now).displayText = (userMessage s.input now).text ∧
    (userMessage s.input now).sender = Sender.user ∧
    loadingMessage.isLoading = true ∧
    (sendMessageStart p now s).1.input = [] ∧
    (sendMessageStart p now s).1.isProcessing = true := by
  rw [sendMessageStart_accepts p now s hin hp]
  exact ⟨rfl, rfl, rfl, rfl, rfl, rfl⟩

theorem claim_C4_witness :
    t2.messages = t1.messages ++ [userMessage t1.input 1, loadingMessage] ∧
    (userMessage t1.input 1).displayText = (userMessage t1.input 1).text ∧
    (userMessage t1.input 1).sender = Sender.user ∧
    loadingMessage.isLoading = true ∧
    t2.input = [] ∧ t2.isProcessing = true :=
  claim_C4_send demoPersona 1 t1 (by decide) rfl

/-- Claim C5: a send attempt while a request is pending, or with an input
that is blank after trimming, is a complete no-op: the state (messages,
input, `isProcessing`) is unchanged and no request is issued. -/
theorem claim_C5_noop (p : Str) (now : Nat) (s : ChatState)
    (h : jsTrim s.input = [] ∨ s.isProcessing = true) :
    sendMessageStart p now s = (s, none) := by
  simp only [sendMessageStart, if_pos h]

/-- Blank-after-trimming input, used for the C5 witness. -/
def wsState : ChatState := { messages := [], input := str "   ", isProcessing := false }

theorem claim_C5_witness :
    sendMessageStart demoPersona 4 t2 = (t2, none) ∧
    sendMessageStart demoPersona 4 wsState = (wsState, none) :=
  ⟨claim_C5_noop demoPersona 4 t2 (Or.inr (by decide)),
   claim_C5_noop demoPersona 4 wsState (Or.inl (by decide))⟩

/-- Input with surrounding whitespace, used for the C6 counterexample. -/
def spacedState : ChatState :=
  { messages := [], input := str " hi ", isProcessing := false }

/-- Claim C6 counterexample: on the accepted input `" hi "` the request
body carries the raw input `" hi "`, which differs from the trimmed input
`"hi"` the claim promises. -/
theorem claim_C6_counterexample :
    (sendMessageStart demoPersona 7 spacedState).2
        = some { url := str "/api/ai/luna", message := str " hi " } ∧
    jsTrim (str " hi ") = str "hi" ∧
    (str " hi " : Str) ≠ str "hi" :=
  ⟨by decide, by decide, by decide⟩

/-- Claim C6 (amended): for every accepted input, `sendMessage` issues
exactly one POST request to `/api/ai/{persona}` whose JSON body carries
the *raw* input as the `message` payload (trimming is used only in the
emptiness guard, not for the payload). -/
theorem claim_C6_request (p : Str) (now : Nat) (s : ChatState)
    (hin : jsTrim s.input ≠ []) (hp : s.isProcessing = false) :
    (sendMessageStart p now s).2
        = some { url := str "/api/ai/" ++ p, message := s.input } := by
  rw [sendMessageStart_accepts p now s hin hp]

theorem claim_C6_witness :
    (sendMessageStart demoPersona 7 spacedState).2
        = some { url := str "/api/ai/" ++ demoPersona, message := spacedState.input } :=
  claim_C6_request demoPersona 7 spacedState (by decide) rfl

/-- Claim C7 (amended): the split is lossless (its parts concatenate back
to the input) and every part without an asterisk passes through unchanged
as a plain span; but an unterminated delimiter is not always literal: a
double asterisk without a closer matches the italic alternative as an
empty span and is rendered as an empty bold element — on `"**abc"` the
split yields `["", "**", "abc"]` and `"**"` renders as `strong ""`. -/
theorem claim_C7_formatter :
    (∀ s : Str, (splitStars s).flatten = s) ∧
    (∀ q : Str, (∀ c ∈ q, c ≠ '*') → renderPart q = Seg.span q) ∧
    splitStars (str "**abc") = [[], str "**", str "abc"] ∧
    renderPart (str "**") = Seg.strong [] :=
  ⟨splitStars_flatten, renderPart_span_of_no_star, by decide, by decide⟩

/-- Claim C7 counterexample: on `"**abc"` the unterminated `"**"` is
consumed as markup (an empty `strong` element) instead of being rendered
as literal text — the displayed characters are just `"abc"`, the
asterisks vanish. -/
theorem claim_C7_counterexample :
    formatResponseText (str "**abc")
        = [Seg.span [], Seg.strong [], Seg.span (str "abc")] ∧
    ((formatResponseText (str "**abc")).map segText).flatten = str "abc" :=
  ⟨by decide, by decide⟩

theorem claim_C7_witness :
    (splitStars (str "a*b*c")).flatten = str "a*b*c" ∧
    renderPart (str "abc") = Seg.span (str "abc") :=
  ⟨claim_C7_formatter.1 (str "a*b*c"),
   claim_C7_formatter.2.1 (str "abc") (by decide)⟩

/-- Claim C8: on the non-parsing timestamp `"abc"` the formatter does not
fall back to the current time: `Number("abc")` is `NaN`,
`toLocaleTimeString` of the invalid date returns the string
`"Invalid Date"` without throwing, so the catch-branch fallback
(`renderHM now`, here `renderHM 0 = "00:00"`) is dead code and the
invalid-date rendering is surfaced. -/
theorem claim_C8_timestamp :
    formatTimestamp 0 (str "abc") = str "Invalid Date" ∧
    renderHM 0 = str "00:00" ∧
    formatTimestamp 0 (str "abc") ≠ renderHM 0 :=
  ⟨by decide, by decide, by decide⟩

/-- Claim C9 counterexample: the `Home` of `src/app/page.tsx` has no
pathname guard — with the wallet connected and the current view
`"/dashboard"` (not the landing route) its effect still navigates. -/
theorem claim_C9_counterexample :
    homeEffectPage true (str "/dashboard") = some (str "/dashboard") ∧
    (str "/dashboard" : Str) ≠ str "/" :=
  ⟨by decide, by decide⟩

/-- Claim C9 (amended): the unnamed `Home` variant navigates to the fixed
dashboard path exactly when connected and the pathname is the landing
route `"/"`; the `src/app/page.tsx` variant navigates whenever connected,
regardless of the current pathname, and never navigates while
disconnected. -/
theorem claim_C9_navigation :
    (∀ (c : Bool) (q : Str),
      homeEffectGuarded c q = some (str "/dashboard") ↔ (c = true ∧ q = str "/")) ∧
    (∀ q : Str, homeEffectPage true q = some (str "/dashboard")) ∧
    (∀ q : Str, homeEffectPage false q = none) := by
  refine ⟨?_, fun _ => rfl, fun _ => rfl⟩
  intro c q
  constructor
  · intro h
    rw [homeEffectGuarded] at h
    split at h
    · rename_i hcond
      simp only [Bool.and_eq_true, beq_iff_eq] at hcond
      exact ⟨hcond.1, hcond.2⟩
    · cases h
  · rintro ⟨rfl, rfl⟩
    simp [homeEffectGuarded]

theorem claim_C9_witness :
    homeEffectGuarded true (str "/") = some (str "/dashboard") ∧
    homeEffectPage true (str "/") = some (str "/dashboard") :=
  ⟨(claim_C9_navigation.1 true (str "/")).mpr ⟨rfl, rfl⟩,
   claim_C9_navigation.2.1 (str "/")⟩

/-- Claim C10: a completed accepted `sendMessage` call leaves the list
exactly two entries longer on success and failure alike — success yields
the old messages plus the user message and the assistant message (the map
preserves length and replaces only sentinel-timestamp messages, leaving
every real-timestamp message in place), failure yields the old messages
plus the user message and the error message. -/
theorem claim_C10_frame (p response : Str) (now now2 : Nat) (s : ChatState)
    (hs : Reachable p s) (hin : jsTrim s.input ≠ []) (hp : s.isProcessing = false) :
    (resolveSuccess p response now2 (sendMessageStart p now s).1).messages
        = s.messages ++ [userMessage s.input now, aiMessage p response now2] ∧
    (resolveFailure now2 (sendMessageStart p now s).1).messages
        = s.messages ++ [userMessage s.input now, errorMessage now2] ∧
    (resolveSuccess p response now2 (sendMessageStart p now s).1).messages.length
        = s.messages.length + 2 ∧
    (resolveFailure now2 (sendMessageStart p now s).1).messages.length
        = s.messages.length + 2 ∧
    (∀ msgs : List ChatMessage,
      (replaceLoading p response now2 msgs).length = msgs.length) ∧
    (∀ msgs : List ChatMessage, ∀ i : Nat, ∀ m : ChatMessage,
      msgs[i]? = some m → m.timestamp ≠ [] →
      (replaceLoading p response now2 msgs)[i]? = some m) := by
  have hts := idle_timestamps hs hp
  have hstart := sendMessageStart_accepts p now s hin hp
  have hsuc :
      (resolveSuccess p response now2 (sendMessageStart p now s).1).messages
        = s.messages ++ [userMessage s.input now, aiMessage p response now2] := by
    rw [hstart]
    simp only [resolveSuccess, replaceLoading, List.map_append]
    rw [show (List.map
          (fun msg => if msg.timestamp = loadingMessage.timestamp
            then aiMessage p response now2 else msg) s.messages)
        = replaceLoading p response now2 s.messages from rfl]
    rw [replaceLoading_id p response now2 s.messages hts]
    congr 1
    simp [userMessage, loadingMessage, natToStr_ne_nil now]
  have hfail :
      (resolveFailure now2 (sendMessageStart p now s).1).messages
        = s.messages ++ [userMessage s.input now, errorMessage now2] := by
    rw [hstart]
    simp only [resolveFailure, List.filter_append]
    rw [filterLoading_id s.messages hts]
    have hne : ((userMessage s.input now).timestamp == loadingMessage.timestamp) = false :=
      beq_eq_false_iff_ne.mpr (natToStr_ne_nil now)
    have hkeep :
        ([userMessage s.input now, loadingMessage].filter
          fun m => !(m.timestamp == loadingMessage.timestamp))
          = [userMessage s.input now] := by
      simp [List.filter_cons, hne, loadingMessage, userMessage, natToStr_ne_nil now]
    rw [hkeep]
    simp [List.append_assoc]
  refine ⟨hsuc, hfail, ?_, ?_, ?_, ?_⟩
  · rw [hsuc]; simp
  · rw [hfail]; simp
  · intro msgs
    simp [replaceLoading]
  · intro msgs i m hgm hmts
    simp only [replaceLoading, List.getElem?_map, hgm, Option.map_some']
    rw [if_neg (show ¬ m.timestamp = loadingMessage.timestamp from hmts)]

theorem claim_C10_witness :
    (resolveSuccess demoPersona (str "hi") 2 (sendMessageStart demoPersona 1 t1).1).messages
        = t1.messages ++ [userMessage t1.input 1, aiMessage demoPersona (str "hi") 2] ∧
    (resolveFailure 2 (sendMessageStart demoPersona 1 t1).1).messages
        = t1.messages ++ [userMessage t1.input 1, errorMessage 2] :=
  ⟨(claim_C10_frame demoPersona (str "hi") 1 2 t1 reach_t1 (by decide) rfl).1,
   (claim_C10_frame demoPersona (str "hi") 1 2 t1 reach_t1 (by decide) rfl).2.1⟩

end SocialDapp
